import Mathlib

/-!
Shallow embedding of the debugger-js instrumentation pipeline (Go sources:
`main.go` and the unnamed source file): the declaration extractor built on
`declarationRegex`, the loop-scope tracker and instrumenter `instrumentCode`,
the snapshot store mutated by the registered `debug` host function, and the
loop-grouped reporter `writeLoopInfoToFile`.  Strings are processed as
`List Char`, mirroring the byte-level behaviour of the Go code on the ASCII
inputs it targets.
-/

namespace DebuggerJs

/-- Character class of Go's regexp `\s`, namely `[\t\n\f\r ]`. -/
def isReSpace (c : Char) : Bool :=
  c == ' ' || c == '\t' || c == '\n' || c == '\x0c' || c == '\r'

/-- Character class of Go's `unicode.IsSpace`, used by `strings.TrimSpace`. -/
def isGoSpace (c : Char) : Bool :=
  c == ' ' || c == '\t' || c == '\n' || c == '\x0b' || c == '\x0c' || c == '\r' ||
  c == '\x85' || c == '\xa0' || c == '\u1680' ||
  (decide ('\u2000' ≤ c) && decide (c ≤ '\u200a')) ||
  c == '\u2028' || c == '\u2029' || c == '\u202f' || c == '\u205f' || c == '\u3000'
/-- Model of `strings.TrimSpace`: drop Unicode whitespace from both ends. -/
def goTrimSpace (l : List Char) : List Char :=
  ((l.dropWhile isGoSpace).reverse.dropWhile isGoSpace).reverse

/-- Model of `strings.Split(s, c)` for a one-character separator. -/
def splitOnChar (c : Char) : List Char → List (List Char)
  | [] => [[]]
  | x :: xs =>
    match splitOnChar c xs with
    | [] => [[]]
    | p :: ps => if x = c then [] :: p :: ps else (x :: p) :: ps

/-- First character of the inner validation regex `^[a-zA-Z_$][a-zA-Z0-9_$]*$`. -/
def isIdentStart (c : Char) : Bool :=
  (decide ('a' ≤ c) && decide (c ≤ 'z')) || (decide ('A' ≤ c) && decide (c ≤ 'Z')) ||
  c == '_' || c == '$'

/-- Continuation characters of the identifier validation regex. -/
def isIdentChar (c : Char) : Bool :=
  isIdentStart c || (decide ('0' ≤ c) && decide (c ≤ '9'))

/-- Model of `regexp.MatchString` with the full-anchored identifier pattern. -/
def isValidIdent : List Char → Bool
  | [] => false
  | c :: cs => isIdentStart c && cs.all isIdentChar

/-- Leading `\s*(let|const|var)` part of `declarationRegex`: skip the maximal
whitespace run (the keyword letters are not whitespace, so no backtracking can
occur) and try the alternation branches in order. -/
def stripKeyword (l : List Char) : Option (List Char) :=
  let t := l.dropWhile isReSpace
  if t.take 3 = "let".data then some (t.drop 3)
  else if t.take 5 = "const".data then some (t.drop 5)
  else if t.take 3 = "var".data then some (t.drop 3)
  else none

/-- Greedy match of `[^=;]+`/`[^=;]*`: the maximal run of characters other
than `=` and `;` (commas and whitespace are accepted by this class). -/
def takeSeg (l : List Char) : List Char × List Char :=
  l.span (fun c => !(c == '=' || c == ';'))

/-- Greedy match of the optional initializer group `(?:=[^,;]*)?`: if the next
character is `=`, consume it together with the maximal run of characters other
than `,` and `;`; otherwise match the empty string. -/
def takeInit : List Char → List Char × List Char
  | [] => ([], [])
  | c :: rest =>
    if c = '=' then
      let (a, b) := rest.span (fun d => !(d == ',' || d == ';'))
      ('=' :: a, b)
    else ([], c :: rest)

/-- Does the list start with a character other than `=` and `;`?  This is the
condition for `[^=;]+` to succeed at the current position. -/
def headNotEqSemi : List Char → Bool
  | [] => false
  | c :: _ => !(c == '=' || c == ';')

/-- Greedy iterations of the group `(?:\s*,\s*[^=;]+(?:=[^,;]*)?)*`, returning
the characters the group contributes to capture group 2.  Derived from
leftmost-first (Perl-style) matching of Go's regexp engine:

* `\s*,` succeeds exactly when the maximal whitespace run is followed by `,`
  (whitespace is never a comma, so shorter runs cannot help);
* after the comma, if the character following the maximal whitespace run `w2`
  exists and is neither `=` nor `;`, the greedy choice `\s* = w2` stands and
  `[^=;]+` continues from there;
* otherwise, if `w2` is nonempty, the engine backtracks one character:
  `\s*` matches `w2` minus its last character and `[^=;]+` matches that final
  whitespace character (the same characters end up inside group 2);
* otherwise the iteration fails and the whole group stops, leaving the
  position before `\s*,` (the continuation `\s*;?` always succeeds, so no
  further backtracking occurs).

The fuel argument starts at the length of the input; every iteration consumes
at least the comma, so fuel never runs out before the input does. -/
def starIters : Nat → List Char → List Char
  | 0, _ => []
  | fuel + 1, r =>
    let w := r.takeWhile isReSpace
    match r.dropWhile isReSpace with
    | ',' :: r2 =>
      let w2 := r2.takeWhile isReSpace
      let t2 := r2.dropWhile isReSpace
      if headNotEqSemi t2 then
        let (s1, rest1) := takeSeg t2
        let (i1, rest2) := takeInit rest1
        w ++ [','] ++ w2 ++ s1 ++ i1 ++ starIters fuel rest2
      else if 1 ≤ w2.length then
        let (i1, rest2) := takeInit t2
        w ++ [','] ++ w2 ++ i1 ++ starIters fuel rest2
      else []
    | _ => []

/-- Contents of capture group 2 starting at `t` (which the caller guarantees
begins with a character on which `[^=;]+` can start): the first binding clause
followed by the starred comma-separated clauses. -/
def clauseAndStar (t : List Char) : List Char :=
  let (s1, r1) := takeSeg t
  let (i1, r2) := takeInit r1
  s1 ++ i1 ++ starIters r2.length r2

/-- Model of `declarationRegex.FindStringSubmatch`, returning the contents of
capture group 2 when the regex matches.  After the keyword, `\s+` greedily
takes the maximal whitespace run of length `k`; if `[^=;]+` cannot start at
the following character, the engine backtracks `\s+` to `k - 1` characters
(possible only when `k ≥ 2`), whereupon `[^=;]+` starts on the last
whitespace character; the trailing `\s*;?` of the pattern matches the empty
string, so nothing after group 2 can fail. -/
def matchDecl (l : List Char) : Option (List Char) :=
  match stripKeyword l with
  | none => none
  | some r =>
    let w := r.takeWhile isReSpace
    let t := r.dropWhile isReSpace
    if w.length = 0 then none
    else if headNotEqSemi t then some (clauseAndStar t)
    else if 2 ≤ w.length then some (clauseAndStar (r.drop (w.length - 1)))
    else none

/-- Model of `strings.SplitN(part, "=", 2)[0]`: the prefix before the first
`=`, or the whole string when there is none. -/
def takeBeforeEq (l : List Char) : List Char :=
  l.takeWhile (fun c => !(c == '='))

/-- Model of `extractVariablesFromLine`: match `declarationRegex`, split
capture group 2 on commas, strip each part at its first `=`, trim whitespace,
and keep exactly the parts that are valid bare identifiers. -/
def extractVariablesFromLine (line : String) : List String :=
  match matchDecl line.data with
  | none => []
  | some raw =>
    (splitOnChar ',' raw).filterMap (fun part =>
      let name := goTrimSpace (takeBeforeEq part)
      if isValidIdent name then some (String.mk name) else none)

/-- Does the anchored pattern `kw` + `\s*` + `c` (e.g. `^\s*for\s*\(`) match at
the start of `t`?  The leading `\s*` is included for faithfulness even though
`detectLoopType` applies it to an already trimmed line. -/
def matchesLoopHead (t : List Char) (kw : List Char) (c : Char) : Bool :=
  let u := t.dropWhile isReSpace
  (u.take kw.length == kw) && (((u.drop kw.length).dropWhile isReSpace).head? == some c)

/-- Model of `detectLoopType`: trim the line, then try `forLoopRegex`,
`whileLoopRegex` and `doWhileRegex` in order. -/
def detectLoopType (line : String) : String :=
  let t := goTrimSpace line.data
  if matchesLoopHead t "for".data '(' then "for"
  else if matchesLoopHead t "while".data '(' then "while"
  else if matchesLoopHead t "do".data '\x7b' then "do-while"
  else ""

/-- Model of the Go struct `LoopInfo`.  The Go field `Type` is renamed to
`type_` because `Type` is reserved in Lean. -/
structure LoopInfo where
  type_ : String
  Variables : List String
deriving DecidableEq, Repr

/-- Net brace count of a line: `strings.Count(line, "{") - strings.Count(line, "}")`. -/
def braceDelta (line : String) : Int :=
  (line.data.count '\x7b' : Int) - (line.data.count '\x7d' : Int)

/-- Loop-scanning state of `instrumentCode`, including the output builder. -/
structure TrackState where
  detectedLoops : List LoopInfo
  currentLoopIndex : Int
  braceLevel : Int
  inLoop : Bool
  out : String
deriving DecidableEq, Repr

/-- Initial state of `instrumentCode`'s scan. -/
def initState : TrackState :=
  { detectedLoops := [], currentLoopIndex := -1, braceLevel := 0, inLoop := false, out := "" }

/-- Text of one injected reporting call, `fmt.Sprintf("; debug(\"%s\", %s)", v, v)`. -/
def debugCall (v : String) : String :=
  "; debug(\"" ++ v ++ "\", " ++ v ++ ")"

/-- Concatenation of a list of strings (the builder appends them in order). -/
def strJoin : List String → String
  | [] => ""
  | s :: rest => s ++ strJoin rest

/-- Output emitted for one input line: the line itself, followed by one
`debug` call per extracted name when there is at least one, then a newline. -/
def instrLineOut (line : String) : String :=
  let vars := extractVariablesFromLine line
  if 0 < vars.length then line ++ strJoin (vars.map debugCall) ++ "\n"
  else line ++ "\n"

/-- First block of `instrumentCode`'s per-line loop: on a loop-opening line,
append a fresh record, point `currentLoopIndex` at it, set `inLoop` and reset
the brace level (shadowing any loop still notionally open). -/
def stepDetect (s : TrackState) (line : String) : TrackState :=
  let lt := detectLoopType line
  if lt = "" then s
  else
    let loops := s.detectedLoops ++ [⟨lt, []⟩]
    { s with detectedLoops := loops, currentLoopIndex := (loops.length : Int) - 1,
             inLoop := true, braceLevel := 0 }

/-- Second block: while tracking, add the line's net brace count; when the
level falls to zero or below, finalize by clearing `inLoop` and
`currentLoopIndex`. -/
def stepBraces (s : TrackState) (line : String) : TrackState :=
  if s.inLoop then
    let b := s.braceLevel + braceDelta line
    if b ≤ 0 then { s with braceLevel := b, inLoop := false, currentLoopIndex := -1 }
    else { s with braceLevel := b }
  else s

/-- Third block: append the extracted names to the current loop's variable
list.  The `none` branch of the lookup is unreachable from reachable states
(Go would panic there). -/
def stepAttr (s : TrackState) (vars : List String) : TrackState :=
  if s.inLoop ∧ 0 ≤ s.currentLoopIndex ∧ 0 < vars.length then
    match s.detectedLoops.get? s.currentLoopIndex.toNat with
    | some li =>
      let li2 := { li with Variables := li.Variables ++ vars }
      { s with detectedLoops := s.detectedLoops.set s.currentLoopIndex.toNat li2 }
    | none => s
  else s

/-- One iteration of `instrumentCode`'s per-line loop: loop detection, brace
accounting with finalization, attribution of extracted names to the current
loop, and output emission, in the source's order. -/
def instrStep (s : TrackState) (line : String) : TrackState :=
  let s1 := stepDetect s line
  let s2 := stepBraces s1 line
  let s3 := stepAttr s2 (extractVariablesFromLine line)
  { s3 with out := s3.out ++ instrLineOut line }

/-- Model of `strings.Split(script, "\n")`. -/
def splitLines (s : String) : List String :=
  (splitOnChar '\n' s.data).map String.mk

/-- Model of `instrumentCode`: scan the lines top to bottom and return the
rewritten script together with the finalized loop records. -/
def instrumentCode (script : String) : String × List LoopInfo :=
  let st := (splitLines script).foldl instrStep initState
  (st.out, st.detectedLoops)

/-- Dynamically typed value reported to the store, modelled as the closed
tagged variant the core needs (goja `Export` results, opaque to the core). -/
inductive Value where
  | vint (n : Int)
  | vbool (b : Bool)
  | vstr (s : String)
deriving DecidableEq, Repr

/-- Rendering of a reported value by `fmt`'s `%v` verb. -/
def renderValue : Value → String
  | .vint n => toString n
  | .vbool b => if b then "true" else "false"
  | .vstr s => s

/-- The snapshot store `debugInfo`, a mapping from name to last value. -/
abbrev Store := List (String × Value)

/-- Model of the Go map write `debugInfo[name] = value` performed by the
registered `debug` host function: overwrite the entry if the key is present,
otherwise add it. -/
def debugUpsert : Store → String → Value → Store
  | [], n, v => [(n, v)]
  | (m, w) :: rest, n, v =>
    if m = n then (n, v) :: rest else (m, w) :: debugUpsert rest n v

/-- Model of the Go map read `value, exists := allVariables[varName]`. -/
def storeLookup : Store → String → Option Value
  | [], _ => none
  | (m, w) :: rest, n => if m = n then some w else storeLookup rest n

/-- Lines written for one loop's variables by `writeLoopInfoToFile`: an entry
for each tracked name that has a store value, nothing for the others. -/
def renderLoopVars (store : Store) : List String → String
  | [] => ""
  | n :: rest =>
    (match storeLookup store n with
     | some v => "  [" ++ n ++ ", " ++ renderValue v ++ "],\n"
     | none => "") ++ renderLoopVars store rest

/-- Blocks written by `writeLoopInfoToFile`'s `for i, loop := range loopInfos`
loop, starting at index `i`. -/
def renderLoops (store : Store) : Nat → List LoopInfo → String
  | _, [] => ""
  | i, l :: ls =>
    "Loop " ++ toString (i + 1) ++ ":\n" ++
    "Type: " ++ l.type_ ++ "\n" ++
    "Variables in scope: \x7b\n" ++
    renderLoopVars store l.Variables ++
    "\x7d\n\n" ++
    renderLoops store (i + 1) ls

/-- Model of `writeLoopInfoToFile`: the text written to `loops.txt`. -/
def writeLoopInfoToFile (loopInfos : List LoopInfo) (allVariables : Store) : String :=
  "=== LOOP ANALYSIS ===\n\n" ++ renderLoops allVariables 0 loopInfos

/-- Store obtained by running a sequence of `debug(name, value)` report events
against an initially empty store, as `configDebugFunctions` installs it. -/
def applyReports (evs : List (String × Value)) : Store :=
  evs.foldl (fun st e => debugUpsert st e.1 e.2) []

/-- Last value reported for a name in a sequence of report events: the value
of the latest event for that name, if any. -/
def lastReported : List (String × Value) → String → Option Value
  | [], _ => none
  | e :: evs, n =>
    match lastReported evs n with
    | some v => some v
    | none => if e.1 = n then some e.2 else none

/-- Model of `executeAndAnalyze`'s outcome (src lines 191-196): the flag is
whether the interpreter run succeeded; on a fault the function reports failure
and the error path does not touch the store it was given. -/
def executeAndAnalyze (faulted : Bool) (debugInfo : Store) : Bool × Store :=
  if faulted then (false, debugInfo) else (true, debugInfo)

/-- The three-line test script of the spec's loop scenario. -/
def c1Script : String :=
  "for (let i = 0; i < 3; i++) \x7b\n  let sq = i*i;\n\x7d"

/-- Modelled from the spec: the embedded interpreter (an external collaborator,
out of scope of the repository's sources) executing the instrumented form of
`c1Script`.  The rewritten body line is `let sq = i*i;; debug("sq", sq)`, so
the loop runs its body for `i = 0, 1, 2`, and each iteration reports
`("sq", i*i)`; the loop-header line received no injected call, so `i` is never
reported. -/
def c1RunStore : Store :=
  (List.range 3).foldl (fun st i => debugUpsert st "sq" (Value.vint (Int.ofNat (i * i)))) []

/-- Is the head character a regexp-`\s` whitespace character? -/
def headIsReSpace : List Char → Bool
  | [] => false
  | c :: _ => isReSpace c

/-- Statement-side predicate: do the first non-whitespace characters of the
line form one of the keywords `let`, `const` or `var` followed by a
whitespace character? -/
def startsWithDeclKeyword (line : String) : Bool :=
  let t := line.data.dropWhile isReSpace
  ((t.take 3 == "let".data) && headIsReSpace (t.drop 3)) ||
  ((t.take 5 == "const".data) && headIsReSpace (t.drop 5)) ||
  ((t.take 3 == "var".data) && headIsReSpace (t.drop 3))

end DebuggerJs

/-!
Validation of the regex model on concrete lines, checked against the
leftmost-first submatch semantics of Go's regexp engine (covering greedy
backtracking of `\s+` before `[^=;]+`, commas absorbed by `[^=;]+`, failed
star iterations, and the identifier validation).
-/

section ModelValidation
open DebuggerJs

example : extractVariablesFromLine "let x = f(a, b, c);" = ["x", "b"] := by decide
example : extractVariablesFromLine "  let sq = i*i;" = ["sq"] := by decide
example : extractVariablesFromLine "const y = 1" = ["y"] := by decide
example : extractVariablesFromLine "var z" = ["z"] := by decide
example : extractVariablesFromLine "lets = 3" = [] := by decide
example : extractVariablesFromLine "let a,  =1;" = ["a"] := by decide
example : extractVariablesFromLine "let a, ;x" = ["a"] := by decide
example : extractVariablesFromLine "let a , " = ["a"] := by decide
example : extractVariablesFromLine "let x=1," = ["x"] := by decide
example : extractVariablesFromLine "let a, , b" = ["a", "b"] := by decide
example : extractVariablesFromLine "let\ta=1" = ["a"] := by decide
example : extractVariablesFromLine "let a,=" = ["a"] := by decide
example : extractVariablesFromLine "var x= 1 , y =2;" = ["x", "y"] := by decide
example : extractVariablesFromLine "let x = ;" = ["x"] := by decide
example : extractVariablesFromLine "let _a, $b;" = ["_a", "$b"] := by decide
example : extractVariablesFromLine "let 1x, y;" = ["y"] := by decide
example : extractVariablesFromLine "let    =x" = [] := by decide
example : extractVariablesFromLine "let  " = [] := by decide

example : detectLoopType "for (let i = 0; i < 3; i++) \x7b" = "for" := by decide
example : detectLoopType "  let sq = i*i;" = "" := by decide
example : detectLoopType "while(x) \x7b" = "while" := by decide
example : detectLoopType "do \x7b" = "do-while" := by decide
example : detectLoopType "format(x)" = "" := by decide

example :
    (instrumentCode c1Script).1 =
      "for (let i = 0; i < 3; i++) \x7b\n  let sq = i*i;; debug(\"sq\", sq)\n\x7d\n" := by
  decide

end ModelValidation

namespace DebuggerJs

/-! Helper lemmas about the snapshot store. -/

theorem storeLookup_debugUpsert (st : Store) (a n : String) (v : Value) :
    storeLookup (debugUpsert st a v) n = if a = n then some v else storeLookup st n := by
  induction st with
  | nil =>
    by_cases h : a = n <;> simp [debugUpsert, storeLookup, h]
  | cons e rest ih =>
    obtain ⟨m, w⟩ := e
    by_cases hma : m = a
    · subst hma
      by_cases h : m = n <;> simp [debugUpsert, storeLookup, h]
    · by_cases h : a = n
      · subst h
        simp [debugUpsert, storeLookup, hma, ih]
      · simp [debugUpsert, storeLookup, hma, ih, h]

theorem storeLookup_foldl_reports (evs : List (String × Value)) :
    ∀ (st : Store) (n : String),
      storeLookup (evs.foldl (fun s e => debugUpsert s e.1 e.2) st) n =
        match lastReported evs n with
        | some v => some v
        | none => storeLookup st n := by
  induction evs with
  | nil => intro st n; simp [lastReported]
  | cons e evs ih =>
    intro st n
    simp only [List.foldl_cons, ih, lastReported, storeLookup_debugUpsert]
    by_cases h : e.1 = n <;> cases hl : lastReported evs n <;> simp [h, hl]

/-- The store after a sequence of reports holds, for each name, exactly the
last value reported for it. -/
theorem storeLookup_applyReports (evs : List (String × Value)) (n : String) :
    storeLookup (applyReports evs) n = lastReported evs n := by
  rw [applyReports, storeLookup_foldl_reports]
  cases h : lastReported evs n <;> simp [storeLookup]

/-- C10: `report(name, value)` (the registered `debug` function) always
succeeds and sets the entry for `name` to `value`, overwriting any previous
value; the entry of every other key is unchanged, and no key is ever removed,
so the set of stored keys never shrinks. -/
theorem c10_report_upsert_frame (st : Store) (n : String) (v : Value) :
    storeLookup (debugUpsert st n v) n = some v
    ∧ (∀ m : String, m ≠ n → storeLookup (debugUpsert st n v) m = storeLookup st m)
    ∧ (∀ (m : String) (w : Value), storeLookup st m = some w →
        ∃ u : Value, storeLookup (debugUpsert st n v) m = some u) := by
  refine ⟨by simp [storeLookup_debugUpsert], ?_, ?_⟩
  · intro m hm
    rw [storeLookup_debugUpsert, if_neg (fun h => hm h.symm)]
  · intro m w hw
    by_cases h : n = m
    · exact ⟨v, by rw [storeLookup_debugUpsert, if_pos h]⟩
    · exact ⟨w, by rw [storeLookup_debugUpsert, if_neg h, hw]⟩

/-- Witness for C10 at a concrete store and keys. -/
theorem c10_witness :
    storeLookup (debugUpsert [("a", Value.vint 1)] "b" (Value.vint 2)) "b" = some (Value.vint 2)
    ∧ storeLookup (debugUpsert [("a", Value.vint 1)] "b" (Value.vint 2)) "a" = some (Value.vint 1)
    ∧ ∃ u : Value,
        storeLookup (debugUpsert [("a", Value.vint 1)] "b" (Value.vint 2)) "a" = some u := by
  obtain ⟨h1, h2, h3⟩ := c10_report_upsert_frame [("a", Value.vint 1)] "b" (Value.vint 2)
  exact ⟨h1, (h2 "a" (by decide)).trans (by decide), h3 "a" (Value.vint 1) (by decide)⟩

/-- C7: when the embedded interpreter faults while evaluating the rewritten
script, `executeAndAnalyze` reports failure, and the store built from the
reports made before the fault is left exactly as it was: no rollback or
clearing happens, so the last value reported for each name before the fault
is still retrievable. -/
theorem c7_fault_preserves_store (evs : List (String × Value)) :
    (executeAndAnalyze true (applyReports evs)).1 = false
    ∧ (executeAndAnalyze true (applyReports evs)).2 = applyReports evs
    ∧ (∀ (n : String) (v : Value), lastReported evs n = some v →
        storeLookup (executeAndAnalyze true (applyReports evs)).2 n = some v) := by
  refine ⟨rfl, rfl, ?_⟩
  intro n v h
  show storeLookup (applyReports evs) n = some v
  rw [storeLookup_applyReports, h]

/-- Witness for C7: two declarations are reported, then the fault occurs. -/
theorem c7_witness :
    (executeAndAnalyze true (applyReports [("a", Value.vint 1), ("b", Value.vint 3)])).1 = false
    ∧ storeLookup
        (executeAndAnalyze true (applyReports [("a", Value.vint 1), ("b", Value.vint 3)])).2 "a"
        = some (Value.vint 1) := by
  obtain ⟨h1, _, h3⟩ := c7_fault_preserves_store [("a", Value.vint 1), ("b", Value.vint 3)]
  exact ⟨h1, h3 "a" (Value.vint 1) (by decide)⟩

/-- C8: the multi-declaration line `let a, b = 2, c;` yields the names
`a`, `b`, `c` in left-to-right order. -/
theorem c8_multi_declaration_order :
    extractVariablesFromLine "let a, b = 2, c;" = ["a", "b", "c"] := by decide

/-- C9: a destructuring declaration line yields no valid bare identifier, and
a line from which no names are extracted is emitted unchanged (up to the line
terminator re-appended to every line). -/
theorem c9_destructuring_unmodified :
    extractVariablesFromLine "let \x7ba,b\x7d = obj;" = []
    ∧ ∀ line : String, extractVariablesFromLine line = [] →
        instrLineOut line = line ++ "\n" := by
  refine ⟨by decide, ?_⟩
  intro line h
  rw [instrLineOut, h]
  simp

/-- Witness for C9: the destructuring line itself is left unchanged. -/
theorem c9_witness :
    instrLineOut "let \x7ba,b\x7d = obj;" = "let \x7ba,b\x7d = obj;" ++ "\n" :=
  c9_destructuring_unmodified.2 "let \x7ba,b\x7d = obj;" (by decide)

/-- C1 counterexample: on the spec's own loop script, the single detected
`for` record has variable list `["sq"]`, not `["i", "sq"]`, and the store
after execution has no entry for `i`: the loop-header line matches no
declaration, so `i` is neither tracked nor reported. -/
theorem c1_counterexample :
    ¬ ((instrumentCode c1Script).2 = [⟨"for", ["i", "sq"]⟩]
       ∧ storeLookup c1RunStore "i" = some (Value.vint 2)
       ∧ storeLookup c1RunStore "sq" = some (Value.vint 4)) := by
  decide

/-- C1 as amended: the pipeline on the loop script produces exactly one
finalized `for` record with variable list `["sq"]`; after execution the store
holds `sq: 4` (the last iteration's value) and no entry for `i`. -/
theorem c1_loop_scenario :
    (instrumentCode c1Script).2 = [⟨"for", ["sq"]⟩]
    ∧ storeLookup c1RunStore "sq" = some (Value.vint 4)
    ∧ storeLookup c1RunStore "i" = none := by
  decide

/-- C3 counterexample: an initializer with top-level commas splits into
spurious names, so `let x = f(a, b, c);` extracts `["x", "b"]`, not `["x"]`. -/
theorem c3_counterexample :
    ¬ (extractVariablesFromLine ("let x = " ++ "f(a, b, c)" ++ ";") = ["x"]) := by
  decide

/-! Helper lemmas about `instrStep` and the instrumented output. -/

theorem stepDetect_out (s : TrackState) (line : String) :
    (stepDetect s line).out = s.out := by
  simp only [stepDetect]
  split <;> rfl

theorem stepBraces_out (s : TrackState) (line : String) :
    (stepBraces s line).out = s.out := by
  simp only [stepBraces]
  split <;> first | rfl | (split <;> rfl)

theorem stepAttr_out (s : TrackState) (vars : List String) :
    (stepAttr s vars).out = s.out := by
  simp only [stepAttr]
  split <;> first | rfl | (split <;> rfl)

theorem instrStep_out (s : TrackState) (line : String) :
    (instrStep s line).out = s.out ++ instrLineOut line := by
  show (stepAttr (stepBraces (stepDetect s line) line) (extractVariablesFromLine line)).out
        ++ instrLineOut line = s.out ++ instrLineOut line
  rw [stepAttr_out, stepBraces_out, stepDetect_out]

theorem out_foldl (ls : List String) :
    ∀ s : TrackState, (ls.foldl instrStep s).out = s.out ++ strJoin (ls.map instrLineOut) := by
  induction ls with
  | nil => intro s; simp [strJoin]
  | cons ℓ ls ih =>
    intro s
    simp only [List.foldl_cons, List.map_cons, strJoin, ih, instrStep_out]
    rw [String.append_assoc]

/-- C5: the rewritten script is exactly the concatenation of the per-line
outputs, and each line with at least one extracted name is emitted as the
original line followed, before the terminator, by one `debug` call per name
in extraction order, quoting the name and passing the identifier itself. -/
theorem c5_injected_calls (script : String) :
    (instrumentCode script).1 = strJoin ((splitLines script).map instrLineOut)
    ∧ ∀ line : String, extractVariablesFromLine line ≠ [] →
        instrLineOut line =
          line ++ strJoin ((extractVariablesFromLine line).map debugCall) ++ "\n" := by
  constructor
  · show ((splitLines script).foldl instrStep initState).out = _
    rw [out_foldl]
    show "" ++ _ = _
    simp
  · intro line h
    rw [instrLineOut, if_pos (List.length_pos.mpr h)]

/-- Witness for C5 at a concrete declaration line. -/
theorem c5_witness :
    instrLineOut "let a = 1" =
      "let a = 1" ++ strJoin ((extractVariablesFromLine "let a = 1").map debugCall) ++ "\n" :=
  (c5_injected_calls "let a = 1").2 "let a = 1" (by decide)

/-! Helper lemmas for the loop-tracker invariants (C4). -/

theorem stepBraces_detectedLoops (s : TrackState) (line : String) :
    (stepBraces s line).detectedLoops = s.detectedLoops := by
  simp only [stepBraces]
  split <;> first | rfl | (split <;> rfl)

theorem stepAttr_inLoop (s : TrackState) (vars : List String) :
    (stepAttr s vars).inLoop = s.inLoop := by
  simp only [stepAttr]
  split <;> first | rfl | (split <;> rfl)

theorem stepAttr_currentLoopIndex (s : TrackState) (vars : List String) :
    (stepAttr s vars).currentLoopIndex = s.currentLoopIndex := by
  simp only [stepAttr]
  split <;> first | rfl | (split <;> rfl)

theorem stepAttr_braceLevel (s : TrackState) (vars : List String) :
    (stepAttr s vars).braceLevel = s.braceLevel := by
  simp only [stepAttr]
  split <;> first | rfl | (split <;> rfl)

theorem stepAttr_length (s : TrackState) (vars : List String) :
    (stepAttr s vars).detectedLoops.length = s.detectedLoops.length := by
  simp only [stepAttr]
  split
  · split <;> simp
  · rfl

theorem stepAttr_getElem?_frame (s : TrackState) (vars : List String) (j : Nat)
    (h : ¬(s.inLoop = true ∧ s.currentLoopIndex = (j : Int))) :
    (stepAttr s vars).detectedLoops[j]? = s.detectedLoops[j]? := by
  simp only [stepAttr]
  split
  · rename_i hg
    obtain ⟨hin, hnn, _⟩ := hg
    have hne : s.currentLoopIndex.toNat ≠ j := by
      intro he
      exact h ⟨hin, by omega⟩
    split
    · exact List.getElem?_set_ne hne
    · rfl
  · rfl

theorem stepBraces_not_cur (s : TrackState) (line : String) (j : Nat)
    (h : ¬(s.inLoop = true ∧ s.currentLoopIndex = (j : Int))) :
    ¬((stepBraces s line).inLoop = true ∧ (stepBraces s line).currentLoopIndex = (j : Int)) := by
  simp only [stepBraces]
  split
  · split
    · simp
    · simpa using h
  · exact h

theorem stepDetect_frame (s : TrackState) (line : String) (j : Nat)
    (hj : j < s.detectedLoops.length)
    (h : ¬(s.inLoop = true ∧ s.currentLoopIndex = (j : Int))) :
    (stepDetect s line).detectedLoops[j]? = s.detectedLoops[j]?
    ∧ j < (stepDetect s line).detectedLoops.length
    ∧ ¬((stepDetect s line).inLoop = true
        ∧ (stepDetect s line).currentLoopIndex = (j : Int)) := by
  simp only [stepDetect]
  split
  · exact ⟨rfl, hj, h⟩
  · refine ⟨List.getElem?_append_left hj, ?_, ?_⟩
    · simp only [List.length_append, List.length_singleton]
      omega
    · rintro ⟨_, hidx⟩
      rw [List.length_append] at hidx
      simp at hidx
      omega

theorem instrStep_frame (s : TrackState) (line : String) (j : Nat)
    (hj : j < s.detectedLoops.length)
    (hcur : ¬(s.inLoop = true ∧ s.currentLoopIndex = (j : Int))) :
    (instrStep s line).detectedLoops[j]? = s.detectedLoops[j]?
    ∧ j < (instrStep s line).detectedLoops.length
    ∧ ¬((instrStep s line).inLoop = true
        ∧ (instrStep s line).currentLoopIndex = (j : Int)) := by
  have h1 := stepDetect_frame s line j hj hcur
  have h2loops := stepBraces_detectedLoops (stepDetect s line) line
  have h2cur := stepBraces_not_cur (stepDetect s line) line j h1.2.2
  have h3 := stepAttr_getElem?_frame (stepBraces (stepDetect s line) line)
    (extractVariablesFromLine line) j h2cur
  refine ⟨?_, ?_, ?_⟩
  · show (stepAttr (stepBraces (stepDetect s line) line)
      (extractVariablesFromLine line)).detectedLoops[j]? = _
    rw [h3, h2loops, h1.1]
  · show j < (stepAttr (stepBraces (stepDetect s line) line)
      (extractVariablesFromLine line)).detectedLoops.length
    rw [stepAttr_length, h2loops]
    exact h1.2.1
  · show ¬((stepAttr (stepBraces (stepDetect s line) line)
        (extractVariablesFromLine line)).inLoop = true
      ∧ (stepAttr (stepBraces (stepDetect s line) line)
        (extractVariablesFromLine line)).currentLoopIndex = (j : Int))
    rw [stepAttr_inLoop, stepAttr_currentLoopIndex]
    exact h2cur

theorem foldl_frame (more : List String) :
    ∀ (s : TrackState) (j : Nat), j < s.detectedLoops.length →
      ¬(s.inLoop = true ∧ s.currentLoopIndex = (j : Int)) →
      (more.foldl instrStep s).detectedLoops[j]? = s.detectedLoops[j]? := by
  induction more with
  | nil => intro s j _ _; rfl
  | cons ℓ more ih =>
    intro s j hj hc
    obtain ⟨h1, h2, h3⟩ := instrStep_frame s ℓ j hj hc
    rw [List.foldl_cons, ih (instrStep s ℓ) j h2 h3, h1]

theorem instrStep_inLoop_braceLevel (s : TrackState) (line : String) :
    (instrStep s line).inLoop = true → 1 ≤ (instrStep s line).braceLevel := by
  show (stepAttr (stepBraces (stepDetect s line) line)
      (extractVariablesFromLine line)).inLoop = true →
    1 ≤ (stepAttr (stepBraces (stepDetect s line) line)
      (extractVariablesFromLine line)).braceLevel
  rw [stepAttr_inLoop, stepAttr_braceLevel]
  generalize stepDetect s line = t
  simp only [stepBraces]
  split
  · split
    · simp
    · intro _
      show (1 : Int) ≤ t.braceLevel + braceDelta line
      omega
  · intro h
    simp_all

theorem foldl_inLoop_braceLevel (ls : List String) :
    (ls.foldl instrStep initState).inLoop = true →
      1 ≤ (ls.foldl instrStep initState).braceLevel := by
  suffices h : ∀ (ms : List String) (s : TrackState),
      (s.inLoop = true → 1 ≤ s.braceLevel) →
      ((ms.foldl instrStep s).inLoop = true → 1 ≤ (ms.foldl instrStep s).braceLevel) by
    refine h ls initState ?_
    intro hh
    simp [initState] at hh
  intro ms
  induction ms with
  | nil => intro s hs; exact hs
  | cons ℓ ms ih => intro s _; exact ih (instrStep s ℓ) (instrStep_inLoop_braceLevel s ℓ)

theorem instrStep_finalize_iff (s : TrackState) (line : String)
    (hin : s.inLoop = true) (hdet : detectLoopType line = "") :
    (instrStep s line).inLoop = false ↔ s.braceLevel + braceDelta line ≤ 0 := by
  show (stepAttr (stepBraces (stepDetect s line) line)
      (extractVariablesFromLine line)).inLoop = false ↔ _
  rw [stepAttr_inLoop]
  have hsd : stepDetect s line = s := by simp [stepDetect, hdet]
  rw [hsd]
  simp only [stepBraces, hin, if_true]
  split
  · simp_all
  · simp_all

/-- C4: at every line boundary, a state still tracking a loop has a
non-negative (indeed positive) brace level; on a line that opens no new loop,
an actively tracked loop is finalized exactly when the updated level falls to
zero or below — by the first conjunct this is the first such line — and once
a record is no longer the actively tracked one, no later line ever changes
it. -/
theorem c4_tracker_invariant (ls : List String) :
    ((ls.foldl instrStep initState).inLoop = true →
      0 ≤ (ls.foldl instrStep initState).braceLevel)
    ∧ (∀ line : String, (ls.foldl instrStep initState).inLoop = true →
        detectLoopType line = "" →
        ((instrStep (ls.foldl instrStep initState) line).inLoop = false ↔
          (ls.foldl instrStep initState).braceLevel + braceDelta line ≤ 0))
    ∧ (∀ j : Nat, j < (ls.foldl instrStep initState).detectedLoops.length →
        ¬((ls.foldl instrStep initState).inLoop = true
          ∧ (ls.foldl instrStep initState).currentLoopIndex = (j : Int)) →
        ∀ more : List String,
          (more.foldl instrStep (ls.foldl instrStep initState)).detectedLoops[j]?
            = (ls.foldl instrStep initState).detectedLoops[j]?) := by
  refine ⟨?_, ?_, ?_⟩
  · intro h
    have := foldl_inLoop_braceLevel ls h
    omega
  · intro line hin hdet
    exact instrStep_finalize_iff (ls.foldl instrStep initState) line hin hdet
  · intro j hj hc more
    exact foldl_frame more (ls.foldl instrStep initState) j hj hc

/-- Witness for C4: a one-line `for` loop header is tracked with level 1; the
closing brace line finalizes it, and afterwards the record stays fixed. -/
theorem c4_witness :
    (0 ≤ (["for (x) \x7b"].foldl instrStep initState).braceLevel)
    ∧ (instrStep (["for (x) \x7b"].foldl instrStep initState) "\x7d").inLoop = false
    ∧ ((["let q = 1;"].foldl instrStep
          (["for (x) \x7b", "\x7d"].foldl instrStep initState)).detectedLoops[0]?
        = (["for (x) \x7b", "\x7d"].foldl instrStep initState).detectedLoops[0]?) := by
  refine ⟨(c4_tracker_invariant ["for (x) \x7b"]).1 (by decide), ?_, ?_⟩
  · exact ((c4_tracker_invariant ["for (x) \x7b"]).2.1 "\x7d" (by decide) (by decide)).mpr
      (by decide)
  · exact (c4_tracker_invariant ["for (x) \x7b", "\x7d"]).2.2 0 (by decide) (by decide)
      ["let q = 1;"]

/-! Helper lemmas for non-declaration lines (C2). -/

theorem takeWhile_isReSpace_nil (r : List Char) (h : headIsReSpace r = false) :
    (r.takeWhile isReSpace).length = 0 := by
  cases r with
  | nil => rfl
  | cons c cs =>
    rw [headIsReSpace] at h
    simp [List.takeWhile_cons, h]

theorem matchDecl_none_of_no_keyword (line : String)
    (h : startsWithDeclKeyword line = false) :
    matchDecl line.data = none := by
  rw [startsWithDeclKeyword] at h
  simp only [Bool.or_eq_false_iff, Bool.and_eq_false_iff, beq_eq_false_iff_ne, ne_eq] at h
  obtain ⟨⟨h1, h2⟩, h3⟩ := h
  by_cases k1 : (line.data.dropWhile isReSpace).take 3 = "let".data
  · rcases h1 with h1 | h1
    · exact absurd k1 h1
    · simp only [matchDecl, stripKeyword, if_pos k1]
      simp [takeWhile_isReSpace_nil _ h1]
  · by_cases k2 : (line.data.dropWhile isReSpace).take 5 = "const".data
    · rcases h2 with h2 | h2
      · exact absurd k2 h2
      · simp only [matchDecl, stripKeyword, if_neg k1, if_pos k2]
        simp [takeWhile_isReSpace_nil _ h2]
    · by_cases k3 : (line.data.dropWhile isReSpace).take 3 = "var".data
      · rcases h3 with h3 | h3
        · exact absurd k3 h3
        · simp only [matchDecl, stripKeyword, if_neg k1, if_neg k2, if_pos k3]
          simp [takeWhile_isReSpace_nil _ h3]
      · simp [matchDecl, stripKeyword, if_neg k1, if_neg k2, if_neg k3]

/-- C2: a line whose first non-whitespace characters are not `let`, `const`
or `var` followed by whitespace yields no names, is emitted unchanged, and
adds no name to any loop record's variable list. -/
theorem c2_non_declaration_line (line : String) (h : startsWithDeclKeyword line = false) :
    extractVariablesFromLine line = []
    ∧ instrLineOut line = line ++ "\n"
    ∧ ∀ s : TrackState,
        ((instrStep s line).detectedLoops.map LoopInfo.Variables).flatten
          = (s.detectedLoops.map LoopInfo.Variables).flatten := by
  have hx : extractVariablesFromLine line = [] := by
    rw [extractVariablesFromLine, matchDecl_none_of_no_keyword line h]
  refine ⟨hx, ?_, ?_⟩
  · rw [instrLineOut, hx]
    simp
  · intro s
    have hattr : ∀ t : TrackState, stepAttr t (extractVariablesFromLine line) = t := by
      intro t
      rw [hx]
      simp [stepAttr]
    show ((stepAttr (stepBraces (stepDetect s line) line)
        (extractVariablesFromLine line)).detectedLoops.map LoopInfo.Variables).flatten = _
    rw [hattr, stepBraces_detectedLoops]
    simp only [stepDetect]
    split
    · rfl
    · simp

/-- Witness for C2 at the loop-header line of the spec's loop scenario. -/
theorem c2_witness :
    extractVariablesFromLine "for (let i = 0; i < 3; i++) \x7b" = []
    ∧ instrLineOut "for (let i = 0; i < 3; i++) \x7b"
        = "for (let i = 0; i < 3; i++) \x7b" ++ "\n" := by
  have h := c2_non_declaration_line "for (let i = 0; i < 3; i++) \x7b" (by decide)
  exact ⟨h.1, h.2.1⟩

/-! Helper lemmas for the loop-grouped dump (C6). -/

theorem renderLoopVars_eq (store : Store) (vars : List String) :
    renderLoopVars store vars = strJoin (vars.filterMap (fun n =>
      (storeLookup store n).map
        (fun v => "  [" ++ n ++ ", " ++ renderValue v ++ "],\n"))) := by
  induction vars with
  | nil => rfl
  | cons n rest ih =>
    rw [renderLoopVars]
    cases hl : storeLookup store n
    · simp [List.filterMap_cons, hl, ih]
    · simp [List.filterMap_cons, hl, ih, strJoin]

theorem renderLoops_eq (store : Store) (ls : List LoopInfo) :
    ∀ i : Nat, renderLoops store i ls = strJoin (ls.mapIdx (fun j l =>
      "Loop " ++ toString (i + j + 1) ++ ":\n" ++ "Type: " ++ l.type_ ++ "\n" ++
      "Variables in scope: \x7b\n" ++ renderLoopVars store l.Variables ++ "\x7d\n\n")) := by
  induction ls with
  | nil => intro i; rfl
  | cons l ls ih =>
    intro i
    rw [renderLoops, List.mapIdx_cons]
    simp only [strJoin]
    rw [ih (i + 1)]
    have hfg :
        (fun j l' => "Loop " ++ toString (i + 1 + j + 1) ++ ":\n" ++ "Type: "
            ++ LoopInfo.type_ l' ++ "\n" ++ "Variables in scope: \x7b\n"
            ++ renderLoopVars store l'.Variables ++ "\x7d\n\n")
          = (fun j l' => "Loop " ++ toString (i + (j + 1) + 1) ++ ":\n" ++ "Type: "
            ++ LoopInfo.type_ l' ++ "\n" ++ "Variables in scope: \x7b\n"
            ++ renderLoopVars store l'.Variables ++ "\x7d\n\n") := by
      funext j l'
      have h : i + 1 + j + 1 = i + (j + 1) + 1 := by omega
      rw [h]
    rw [hfg]

/-- C6: the loop dump renders, for each finalized record in detection order,
a block giving the one-based loop index and kind, followed by one line per
tracked name that has a store entry — in the record's variable order, paired
with the current store value — and tracked names with no store entry are
omitted from the block. -/
theorem c6_loop_dump (loopInfos : List LoopInfo) (store : Store) :
    writeLoopInfoToFile loopInfos store =
      "=== LOOP ANALYSIS ===\n\n" ++
      strJoin (loopInfos.mapIdx (fun i l =>
        "Loop " ++ toString (i + 1) ++ ":\n" ++ "Type: " ++ l.type_ ++ "\n" ++
        "Variables in scope: \x7b\n" ++
        strJoin (l.Variables.filterMap (fun n =>
          (storeLookup store n).map
            (fun v => "  [" ++ n ++ ", " ++ renderValue v ++ "],\n"))) ++
        "\x7d\n\n")) := by
  rw [writeLoopInfoToFile, renderLoops_eq store loopInfos 0]
  have hf :
      (fun j l => "Loop " ++ toString (0 + j + 1) ++ ":\n" ++ "Type: "
          ++ LoopInfo.type_ l ++ "\n" ++ "Variables in scope: \x7b\n"
          ++ renderLoopVars store l.Variables ++ "\x7d\n\n")
        = (fun (i : Nat) (l : LoopInfo) =>
          "Loop " ++ toString (i + 1) ++ ":\n" ++ "Type: " ++ l.type_ ++ "\n" ++
          "Variables in scope: \x7b\n" ++
          strJoin (l.Variables.filterMap (fun n =>
            (storeLookup store n).map
              (fun v => "  [" ++ n ++ ", " ++ renderValue v ++ "],\n"))) ++
          "\x7d\n\n") := by
    funext i l
    rw [renderLoopVars_eq, Nat.zero_add]
  rw [hf]

/-! Helper lemmas for single-declaration lines with comma-free initializers (C3). -/

theorem starIters_semi (f : Nat) (xs : List Char) : starIters f (';' :: xs) = [] := by
  cases f with
  | zero => rfl
  | succ f => rfl

theorem splitOnChar_no_comma (l : List Char) (h : ∀ c ∈ l, ¬ c = ',') :
    splitOnChar ',' l = [l] := by
  induction l with
  | nil => rfl
  | cons c cs ih =>
    have hc : ¬ c = ',' := h c (List.mem_cons_self c cs)
    have ih' := ih (fun d hd => h d (List.mem_cons_of_mem c hd))
    simp only [splitOnChar]
    rw [ih']
    simp [hc]

theorem span_no_comma (ed : List Char) (h : ∀ c ∈ ed, ¬ c = ',') :
    ∃ A B, (ed ++ [';']).span (fun d => !(d == ',' || d == ';')) = (A, ';' :: B)
      ∧ ∀ c ∈ A, ¬ c = ',' := by
  induction ed with
  | nil => exact ⟨[], [], rfl, by simp⟩
  | cons c cs ih =>
    have hc : ¬ c = ',' := h c (List.mem_cons_self c cs)
    obtain ⟨A, B, hAB, hA⟩ := ih (fun d hd => h d (List.mem_cons_of_mem c hd))
    rw [List.span_eq_take_drop] at hAB
    obtain ⟨htake, hdrop⟩ := Prod.mk.injEq .. ▸ hAB
    by_cases hsemi : c = ';'
    · subst hsemi
      refine ⟨[], cs ++ [';'], ?_, by simp⟩
      rw [List.span_eq_take_drop]
      simp [List.takeWhile_cons, List.dropWhile_cons]
    · have hpc : (!(c == ',' || c == ';')) = true := by
        simp [hc, hsemi]
      refine ⟨c :: A, B, ?_, ?_⟩
      · rw [List.span_eq_take_drop, List.cons_append, List.takeWhile_cons,
          List.dropWhile_cons]
        simp only [hpc, if_true]
        rw [htake, hdrop]
      · intro d hd
        rcases List.mem_cons.mp hd with hd | hd
        · exact hd ▸ hc
        · exact hA d hd

/-- C3 as amended: for a single-declaration line `let x = <expr>;` whose
initializer expression contains no comma, the extractor returns exactly
`["x"]`.  (For an initializer with a top-level comma, the shallow pattern can
split it into extra spurious names — see the counterexample.) -/
theorem c3_single_declaration (E : String) (h : ∀ c ∈ E.data, ¬ c = ',') :
    extractVariablesFromLine ("let x = " ++ E ++ ";") = ["x"] := by
  obtain ⟨A, B, hspan, hA⟩ := span_no_comma E.data h
  have hdata : ("let x = " ++ E ++ ";").data
      = 'l' :: 'e' :: 't' :: ' ' :: 'x' :: ' ' :: '=' :: ' ' :: (E.data ++ [';']) := by
    rw [String.data_append, String.data_append]
    simp
  have hspan2 : (' ' :: (E.data ++ [';'])).span (fun d => !(d == ',' || d == ';'))
      = (' ' :: A, ';' :: B) := by
    rw [List.span_eq_take_drop] at hspan ⊢
    obtain ⟨htake, hdrop⟩ := Prod.mk.injEq .. ▸ hspan
    rw [List.takeWhile_cons, List.dropWhile_cons]
    simp only [show (!((' ' : Char) == ',' || (' ' : Char) == ';')) = true from rfl, if_true]
    rw [htake, hdrop]
  have hinit : takeInit ('=' :: ' ' :: (E.data ++ [';'])) = ('=' :: ' ' :: A, ';' :: B) := by
    rw [show takeInit ('=' :: ' ' :: (E.data ++ [';']))
        = (match (' ' :: (E.data ++ [';'])).span (fun d => !(d == ',' || d == ';')) with
           | (a, b) => ('=' :: a, b)) from rfl, hspan2]
  have hcs : clauseAndStar ('x' :: ' ' :: '=' :: ' ' :: (E.data ++ [';']))
      = 'x' :: ' ' :: '=' :: ' ' :: A := by
    rw [show clauseAndStar ('x' :: ' ' :: '=' :: ' ' :: (E.data ++ [';']))
        = (match takeInit ('=' :: ' ' :: (E.data ++ [';'])) with
           | (i1, r2) => ['x', ' '] ++ i1 ++ starIters r2.length r2) from rfl, hinit]
    rw [show (match (('=' :: ' ' :: A : List Char), (';' :: B : List Char)) with
        | (i1, r2) => (['x', ' '] : List Char) ++ i1 ++ starIters r2.length r2)
        = ['x', ' '] ++ ('=' :: ' ' :: A) ++ starIters (';' :: B).length (';' :: B) from rfl]
    rw [starIters_semi]
    simp
  have hmd : matchDecl ("let x = " ++ E ++ ";").data
      = some ('x' :: ' ' :: '=' :: ' ' :: A) := by
    rw [hdata]
    rw [show matchDecl ('l' :: 'e' :: 't' :: ' ' :: 'x' :: ' ' :: '=' :: ' '
          :: (E.data ++ [';']))
        = some (clauseAndStar ('x' :: ' ' :: '=' :: ' ' :: (E.data ++ [';']))) from rfl]
    rw [hcs]
  have hA' : ∀ c ∈ ('x' :: ' ' :: '=' :: ' ' :: A), ¬ c = ',' := by
    intro c hcmem
    rcases List.mem_cons.mp hcmem with rfl | hcmem
    · decide
    rcases List.mem_cons.mp hcmem with rfl | hcmem
    · decide
    rcases List.mem_cons.mp hcmem with rfl | hcmem
    · decide
    rcases List.mem_cons.mp hcmem with rfl | hcmem
    · decide
    exact hA c hcmem
  rw [extractVariablesFromLine, hmd]
  show (splitOnChar ',' ('x' :: ' ' :: '=' :: ' ' :: A)).filterMap _ = ["x"]
  rw [splitOnChar_no_comma _ hA']
  rfl

/-- Witness for C3 at a concrete comma-free initializer. -/
theorem c3_witness :
    extractVariablesFromLine ("let x = " ++ "f(ab)" ++ ";") = ["x"] :=
  c3_single_declaration "f(ab)" (by decide)

end DebuggerJs
